import Mathlib

/-
Verification of the codemonkey hierarchical response-cache and
context-budgeting core.

The TypeScript sources are shallowly embedded:
  * `Similarity`   — src/src/utils/similarity.ts
  * `Codemonkey`   — shared message / context-window data model
                     (src/vscode/types/chat.ts, src/services/types.ts)
  * `CM1`          — the first `ContextManager` class in
                     src/src/services/ContextManager.ts (lines 8-254)
  * `CM2`          — the second `ContextManager` class in the same file
                     (lines 265-348)
  * `CMP4`         — the `ContextManager` variant in src/unnamed/part_004
  * `Cache`        — CacheService.ts / the `HierarchicalCacheService`
                     variant in src/unnamed/part_001

JavaScript numbers are modelled by `ℚ` (all arithmetic performed by the
code is exact on dyadic rationals of the relevant size); `Math.ceil` is
`Nat.ceil`; JS division `0 / 0 = NaN` is modelled by `Option ℚ` with
`none` standing for `NaN`.  `Date.now()` is passed in as an explicit
`now : ℕ` parameter.  The on-disk level directories are modelled as
insertion-ordered association lists, matching `fs.readdir` listing order
and the insertion order of JSON object keys, so that equality of the
model values corresponds to byte-identical serialized output.
-/

namespace Codemonkey

/-- Search helper for JS `String.prototype.includes`: does `pat` occur
as a contiguous run inside `s`? -/
def infixSearch (pat : List Char) : List Char → Bool
  | [] => pat.isEmpty
  | c :: rest => pat.isPrefixOf (c :: rest) || infixSearch pat rest

/-- JS substring containment (`String.prototype.includes`), at the level
of UTF-16 code units, modelled as infix search on the character list. -/
def includesStr (s pat : String) : Bool :=
  infixSearch pat.toList s.toList

namespace Similarity

/-- Trim of leading and trailing whitespace on a character list (JS
`String.prototype.trim`, restricted to ASCII whitespace). -/
def trimChars (l : List Char) : List Char :=
  ((l.dropWhile Char.isWhitespace).reverse.dropWhile Char.isWhitespace).reverse

/-- `const normalize = (str) => str.toLowerCase().trim();` -/
def normalize (s : String) : String :=
  String.mk (trimChars (s.data.map Char.toLower))

/-- `getPairs` from similarity.ts: the set of 2-character shingles
`str.slice(i, i+2)`; a JS `Set` of 2-character strings is the finite set
of consecutive character pairs. -/
def getPairs (s : String) : Finset (Char × Char) :=
  (s.toList.zip s.toList.tail).toFinset

/-- `computeStringSimilarity` from src/src/utils/similarity.ts.
`none` models the IEEE-754 value `NaN`, which JS produces for `0 / 0`:
the final `return (2.0 * intersectionSize) / (pairs1.size + pairs2.size)`
divides zero by zero whenever both normalized strings are shorter than
two characters (and unequal, and nonempty). -/
def computeStringSimilarity (str1 str2 : String) : Option ℚ :=
  let s1 := normalize str1
  let s2 := normalize str2
  if s1 = s2 then some 1
  else if s1.length = 0 ∨ s2.length = 0 then some 0
  else
    let pairs1 := getPairs s1
    let pairs2 := getPairs s2
    let intersectionSize := (pairs1.filter (· ∈ pairs2)).card
    if pairs1.card + pairs2.card = 0 then none
    else some ((2 * intersectionSize : ℚ) / ((pairs1.card : ℚ) + (pairs2.card : ℚ)))

end Similarity

/-- Message roles, from src/vscode/types/chat.ts:
`type Role = 'user' | 'assistant'` and `type InternalRole = Role | 'system'`. -/
inductive InternalRole
  | user
  | assistant
  | system
deriving DecidableEq, Repr

/-- `interface Message` from src/vscode/types/chat.ts.  The optional
`type` field is never read by the cache/context core and is omitted;
`timestamp?` is `Option ℕ` (milliseconds). -/
structure Message where
  role : InternalRole
  content : String
  timestamp : Option Nat
deriving DecidableEq, Repr

/-- `interface ContextWindow` from src/services/types.ts. -/
structure ContextWindow where
  messages : List Message
  totalTokens : Nat
deriving DecidableEq, Repr

/-- `Date.now() - (msg.timestamp || 0) < 30 * 60 * 1000`, common to all
three `getPriorityMessages` variants.  JS `timestamp || 0` maps both a
missing timestamp and `0` to `0`; a timestamp in the future gives a
negative difference in JS and `0` under truncated `ℕ` subtraction, and
both compare `< 30·60·1000` the same way. -/
def isRecent (now : Nat) (msg : Message) : Bool :=
  now - msg.timestamp.getD 0 < 30 * 60 * 1000

/-- `msg.content.includes('\x60\x60\x60') || msg.content.includes('systemCommand')`,
common to all three variants. -/
def hasCode (msg : Message) : Bool :=
  includesStr msg.content "```" || includesStr msg.content "systemCommand"

/-- The file-operation marker test
(`'CREATE FILE:' / 'WRITE TO FILE:' / 'DEBUG:'`); named `isImportant` in
the first ContextManager class and `isFileOperation` in the other two,
with an identical body. -/
def isFileOperation (msg : Message) : Bool :=
  includesStr msg.content "CREATE FILE:" ||
  includesStr msg.content "WRITE TO FILE:" ||
  includesStr msg.content "DEBUG:"

/-! First `ContextManager` class of src/src/services/ContextManager.ts
(lines 8-254): `optimizeContext(messages, maxTokens)` with the
essential-message truncation fallback.  The summarization step calls the
Anthropic API; it is modelled by an arbitrary function parameter
`summarize`, so every theorem quantifying over it covers every possible
behaviour of `summarizeOldMessages` (including its internal fallbacks). -/

namespace CM1

/-- `estimateTokenCount` (lines 74-79): `Math.ceil(reduce(sum + len/4, 0))`
— note this first variant has no per-message overhead. -/
def estimateTokenCount (messages : List Message) : Nat :=
  Nat.ceil (messages.foldl (fun sum msg => sum + (msg.content.length : ℚ) / 4) 0)

/-- `getPriorityMessages` (lines 55-72): user/assistant messages are kept
when recent or marked; any other role (i.e. `system`) is kept
unconditionally. -/
def getPriorityMessages (now : Nat) (messages : List Message) : List Message :=
  messages.filter fun msg =>
    if msg.role = InternalRole.assistant ∨ msg.role = InternalRole.user then
      isRecent now msg || hasCode msg || isFileOperation msg
    else true

/-- The `essential` filter of `truncateContext` (lines 213-218):
assistant role, or a `systemCommand` / `CREATE FILE:` / `DEBUG:` marker
(this list has no code-fence and no `WRITE TO FILE:` test). -/
def essentialPred (msg : Message) : Bool :=
  decide (msg.role = InternalRole.assistant) ||
  includesStr msg.content "systemCommand" ||
  includesStr msg.content "CREATE FILE:" ||
  includesStr msg.content "DEBUG:"

end CM1

/-- The greedy newest-to-oldest inclusion loop shared (up to the
per-message estimator `est1`) by all three `truncateContext` variants:
walk the reversed message list, prepend each message whose estimated
size still fits, stop at the first that does not. -/
def fitGreedy (est1 : Message → Nat) (maxTokens : Nat) :
    List Message → List Message → Nat → ContextWindow
  | [], result, currentTokens => ⟨result, currentTokens⟩
  | msg :: rest, result, currentTokens =>
    let msgTokens := est1 msg
    if currentTokens + msgTokens ≤ maxTokens then
      fitGreedy est1 maxTokens rest (msg :: result) (currentTokens + msgTokens)
    else ⟨result, currentTokens⟩

namespace CM1

/-- `truncateContext` (lines 211-254).  `nonEssential` is
`messages.filter(msg => !essential.includes(msg))`; since `essential`
filters `messages` by a function of the message value, this equals
filtering by the negated predicate (proved below).  The budget check is
the JS signed comparison `remainingTokens <= 0` with
`remainingTokens = maxTokens - essentialTokens`. -/
def truncateContext (messages : List Message) (maxTokens : Nat) : ContextWindow :=
  let essential := messages.filter essentialPred
  let nonEssential := messages.filter fun msg => !(decide (msg ∈ essential))
  let essentialTokens := estimateTokenCount essential
  if (maxTokens : ℤ) - (essentialTokens : ℤ) ≤ 0 then
    ⟨essential, essentialTokens⟩
  else
    fitGreedy (fun m => estimateTokenCount [m]) maxTokens
      nonEssential.reverse essential essentialTokens

/-- `optimizeContext` (lines 29-53): priority filter, then the
summarization fallback (abstracted as `summarize`), then truncation. -/
def optimizeContext (summarize : List Message → Nat → List Message)
    (now : Nat) (messages : List Message) (maxTokens : Nat) : ContextWindow :=
  let priorityMessages := getPriorityMessages now messages
  let totalTokens := estimateTokenCount priorityMessages
  if totalTokens ≤ maxTokens then ⟨priorityMessages, totalTokens⟩
  else
    let summarizedMessages := summarize messages maxTokens
    let totalTokens2 := estimateTokenCount summarizedMessages
    if totalTokens2 ≤ maxTokens then ⟨summarizedMessages, totalTokens2⟩
    else truncateContext summarizedMessages maxTokens

end CM1

/-! Second `ContextManager` class of src/src/services/ContextManager.ts
(lines 265-348). -/

namespace CM2

/-- `estimateTokenCount` (lines 320-325):
`Math.ceil(reduce(sum + len/4 + metadataOverhead, 0))` with
`metadataOverhead = 20`.  The `ContextManager` in src/unnamed/part_004
(lines 87-92) has a character-for-character identical estimator. -/
def estimateTokenCount (messages : List Message) : Nat :=
  Nat.ceil (messages.foldl
    (fun sum msg => sum + (msg.content.length : ℚ) / 4 + 20) 0)

/-- `getPriorityMessages` (lines 308-318): no role test at all — kept iff
recent, code-marked, or file-operation-marked. -/
def getPriorityMessages (now : Nat) (messages : List Message) : List Message :=
  messages.filter fun msg =>
    isRecent now msg || hasCode msg || isFileOperation msg

/-- `truncateContext` (lines 327-348): plain greedy newest-to-oldest
inclusion, no essential set. -/
def truncateContext (messages : List Message) (maxTokens : Nat) : ContextWindow :=
  fitGreedy (fun m => estimateTokenCount [m]) maxTokens messages.reverse [] 0

/-- `optimizeContext` (lines 284-306).  `maxTokens ||
this.modelService.getCurrentTokenLimit()`: a missing or zero budget
falls back to the model's token limit (JS `0` is falsy), which is passed
in as `limit`.  The surrounding try/catch is dead code in this model
(nothing on the path throws) and is not represented. -/
def optimizeContext (limit : Nat) (now : Nat) (messages : List Message)
    (maxTokens : Nat) : ContextWindow :=
  let availableTokens := if maxTokens = 0 then limit else maxTokens
  let priorityMessages := getPriorityMessages now messages
  let totalTokens := estimateTokenCount priorityMessages
  if totalTokens ≤ availableTokens then ⟨priorityMessages, totalTokens⟩
  else truncateContext priorityMessages availableTokens

end CM2

/-! The `ContextManager` of src/unnamed/part_004. -/

namespace CMP4

/-- The extra retention clause of part_004's `getPriorityMessages`
(lines 78-81): assistant messages mentioning `code`, `systemCommand` or
`error`. -/
def isImportantRole (msg : Message) : Bool :=
  decide (msg.role = InternalRole.assistant) &&
  (includesStr msg.content "code" ||
   includesStr msg.content "systemCommand" ||
   includesStr msg.content "error")

/-- `getPriorityMessages` (lines 67-85): system messages always kept;
otherwise recent / code / file-operation / important-assistant. -/
def getPriorityMessages (now : Nat) (messages : List Message) : List Message :=
  messages.filter fun msg =>
    if msg.role = InternalRole.system then true
    else
      isRecent now msg || hasCode msg || isFileOperation msg ||
        isImportantRole msg

/-- The system-message loop of part_004's `truncateContext`
(lines 131-138): push each system message that still fits, skipping (not
stopping at) the ones that do not. -/
def sysLoop (est1 : Message → Nat) (maxTokens : Nat) :
    List Message → List Message → Nat → List Message × Nat
  | [], result, totalTokens => (result, totalTokens)
  | msg :: rest, result, totalTokens =>
    let tokens := est1 msg
    if totalTokens + tokens ≤ maxTokens then
      sysLoop est1 maxTokens rest (result ++ [msg]) (totalTokens + tokens)
    else
      sysLoop est1 maxTokens rest result totalTokens

/-- `truncateContext` (lines 124-155): system messages first
(skip-on-overflow), then the remaining messages newest-to-oldest with a
`break` (prepending, so they end up in front of the system block, as in
the source). -/
def truncateContext (messages : List Message) (maxTokens : Nat) : ContextWindow :=
  let est1 := fun m => CM2.estimateTokenCount [m]
  let systemMessages := messages.filter fun msg =>
    decide (msg.role = InternalRole.system)
  let s := sysLoop est1 maxTokens systemMessages [] 0
  let recentMessages := (messages.filter fun msg =>
    !(decide (msg.role = InternalRole.system))).reverse
  fitGreedy est1 maxTokens recentMessages s.1 s.2

end CMP4

/-! The hierarchical cache.  `CacheService` (src/src/services/CacheService.ts)
and the `HierarchicalCacheService` of src/unnamed/part_001 persist the
same structure: per level, one JSON file per entry (named by the entry
id, a truncated SHA-256 of the content) plus one `index.json` mapping
tag → array of ids.  A level directory is modelled as an
insertion-ordered association list `files : List (String × CacheEntry)`
(`fs.readdir` listing order) and the index as an insertion-ordered
association list (JSON object key order), so equality of model values
corresponds to byte-identical serialized JSON.  The SHA-256 id
derivation (`crypto.createHash('sha256')...substring(0, 12)`) lives in
Node's crypto library, outside this repository; it is passed in as an
arbitrary deterministic `genId : String → String`, which is all any
claim here depends on.  Likewise `modelService.getCurrentModel()` and
`getCurrentTokenCost()` are external and passed in as parameters. -/

namespace Cache

/-- The `metadata` record of a `CacheEntry`
(src/src/services/CacheService.ts lines 18-23). -/
structure Metadata where
  timestamp : Nat
  tokensUsed : Option Nat
  model : String
  cost : Option ℚ
deriving DecidableEq, Repr

/-- `interface CacheEntry` (src/src/services/CacheService.ts lines 12-24). -/
structure CacheEntry where
  id : String
  level : Nat
  content : String
  tags : List String
  parentId : Option String
  metadata : Metadata
deriving DecidableEq, Repr

/-- `index.json` content: `Record<string, string[]>` with JSON object
key insertion order. -/
abbrev Index := List (String × List String)

/-- Read a tag's id list, an absent tag giving `[]`
(`index[tag] || []`). -/
def lookupTag (index : Index) (tag : String) : List String :=
  (index.lookup tag).getD []

/-- Overwrite the value stored under an existing key, or append the
binding if the key is absent (JS object assignment `index[tag] = ids`). -/
def setTag : Index → String → List String → Index
  | [], tag, ids => [(tag, ids)]
  | (t, v) :: rest, tag, ids =>
    if t = tag then (tag, ids) :: rest else (t, v) :: setTag rest tag ids

/-- One iteration of the tag loop shared by `updateIndex` and
`rebuildIndex`:
`if (!index[tag]) index[tag] = []; if (!index[tag].includes(id)) index[tag].push(id);` -/
def indexAdd (index : Index) (tag : String) (id : String) : Index :=
  let index1 := if index.lookup tag = none then index ++ [(tag, [])] else index
  let ids := lookupTag index1 tag
  if id ∈ ids then index1 else setTag index1 tag (ids ++ [id])

/-- `updateIndex` (CacheService.ts lines 109-130 / part_001 lines
105-126): read the index (missing index = `{}`), add `id` under every
tag of the entry, write it back. -/
def updateIndex (index : Index) (id : String) (tags : List String) : Index :=
  tags.foldl (fun idx tag => indexAdd idx tag id) index

/-- One cache level: the entry files of the level directory plus its
`index.json`. -/
structure LevelState where
  files : List (String × CacheEntry)
  index : Index
deriving DecidableEq, Repr

/-- `fs.writeFile` into the level directory: replace the file's content
in place if it exists, else create it (a new directory entry). -/
def writeFile : List (String × CacheEntry) → String → CacheEntry →
    List (String × CacheEntry)
  | [], id, e => [(id, e)]
  | (k, v) :: rest, id, e =>
    if k = id then (id, e) :: rest else (k, v) :: writeFile rest id e

/-- `store` (CacheService.ts lines 75-107): build the entry (id =
`genId content`, metadata timestamp = now, cost only when `tokensUsed`
is truthy — so `tokensUsed = 0` yields no cost), write the entry file,
then update the index.  Returns the entry together with the new level
state. -/
def store (genId : String → String) (currentModel : String)
    (currentTokenCost : ℚ) (now : Nat) (level : Nat) (st : LevelState)
    (content : String) (tags : List String) (parentId : Option String)
    (tokensUsed : Option Nat) : CacheEntry × LevelState :=
  let entry : CacheEntry :=
    { id := genId content
      level := level
      content := content
      tags := tags
      parentId := parentId
      metadata :=
        { timestamp := now
          tokensUsed := tokensUsed
          model := currentModel
          cost :=
            match tokensUsed with
            | some n => if n ≠ 0 then some ((n : ℚ) * currentTokenCost) else none
            | none => none } }
  (entry, ⟨writeFile st.files entry.id entry, updateIndex st.index entry.id tags⟩)

/-- `get` (CacheService.ts lines 132-141): point lookup of the entry
file; any read failure is a cache miss (`none`). -/
def get (id : String) (st : LevelState) : Option CacheEntry :=
  st.files.lookup id

/-- JS `new Set(array)` followed by `Array.from`: deduplicate keeping
first occurrences. -/
def dedupFirst (seen : List String) : List String → List String
  | [] => []
  | x :: rest =>
    if x ∈ seen then dedupFirst seen rest
    else x :: dedupFirst (x :: seen) rest

/-- `findByTags` (part_001 lines 128-159): intersect the requested tags'
id sets starting from the first tag's set (`hashSets[0] || new Set()`,
so zero tags give an empty result), then read each matching entry,
silently skipping unreadable ones. -/
def findByTags (tags : List String) (st : LevelState) : List CacheEntry :=
  let hashSets := tags.map fun tag => lookupTag st.index tag
  let matchingHashes :=
    (dedupFirst [] (hashSets.headD [])).filter fun hash =>
      hashSets.all fun s => hash ∈ s
  matchingHashes.filterMap fun hash => get hash st

/-- `rebuildIndex` (CacheService.ts lines 267-296 / part_001 lines
217-247): fold over the level's entry files in directory order, starting
from an empty index, adding each entry's id under each of its tags with
the same add-if-absent logic as `updateIndex`.  (part_001 keys the
addition by the file name, CacheService.ts by `entry.id`; the file name
of every entry written by `store` is its id, so both are the fold below
over `files`.) -/
def rebuildIndex (files : List (String × CacheEntry)) : Index :=
  files.foldl
    (fun index file => file.2.tags.foldl (fun idx tag => indexAdd idx tag file.1) index)
    []

/-- The effect of a `rebuildIndex` call on a level: the entry files are
untouched and `index.json` is rewritten from them. -/
def rebuildLevel (st : LevelState) : LevelState :=
  ⟨st.files, rebuildIndex st.files⟩

/-- Eviction plus rebuild for a single level, the per-level body shared
by both cleanup variants (CacheService.ts lines 233-248, part_001 lines
187-210): unlink every entry with `now - timestamp > maxAge`, then
rebuild the level's index from the surviving files. -/
def cleanupLevel (now maxAge : Nat) (st : LevelState) : LevelState :=
  let files := st.files.filter fun file =>
    !(decide (now - file.2.metadata.timestamp > maxAge))
  ⟨files, rebuildIndex files⟩

/-- The whole cache: one optional level state per level, position =
level number; `none` models a level whose directory cannot be read
(`fs.readdir` throws), the failure mode reachable because
`initializeCache` errors are caught and directories can be removed
externally. -/
abbrev CacheState := List (Option LevelState)

/-- `HierarchicalCacheService.cleanup` (part_001 lines 184-215): the
loop body is wrapped in a per-level try/catch, so every readable level
is evicted and rebuilt regardless of failures at other levels, and a
failed level is logged and left as is. -/
def cleanupHier (now maxAge : Nat) (levels : CacheState) : CacheState :=
  levels.map fun o => o.map (cleanupLevel now maxAge)

/-- `CacheService.cleanup` (CacheService.ts lines 229-255): one try/catch
around the whole level loop, so the first failing level aborts the loop
— that level and every later one are left unprocessed (the error is
logged, not rethrown). -/
def cleanupCS (now maxAge : Nat) : CacheState → CacheState
  | [] => []
  | none :: rest => none :: rest
  | some st :: rest => some (cleanupLevel now maxAge st) :: cleanupCS now maxAge rest

end Cache

/-! Helper lemmas about the embedded definitions. -/

/-- Total content length of a message list, the quantity the token
estimators divide by 4. -/
def sumContentLength (messages : List Message) : Nat :=
  (messages.map fun m => m.content.length).sum

lemma foldl_est1 (l : List Message) (init : ℚ) :
    l.foldl (fun sum msg => sum + (msg.content.length : ℚ) / 4) init
      = init + (sumContentLength l : ℚ) / 4 := by
  induction l generalizing init with
  | nil => simp [sumContentLength]
  | cons m tl ih =>
    simp only [List.foldl_cons, ih, sumContentLength, List.map_cons, List.sum_cons]
    push_cast
    ring

lemma foldl_est2 (l : List Message) (init : ℚ) :
    l.foldl (fun sum msg => sum + (msg.content.length : ℚ) / 4 + 20) init
      = init + (sumContentLength l : ℚ) / 4 + 20 * l.length := by
  induction l generalizing init with
  | nil => simp [sumContentLength]
  | cons m tl ih =>
    simp only [List.foldl_cons, ih, sumContentLength, List.map_cons, List.sum_cons,
      List.length_cons]
    push_cast
    ring

lemma est1_closed_form (messages : List Message) :
    CM1.estimateTokenCount messages = Nat.ceil ((sumContentLength messages : ℚ) / 4) := by
  unfold CM1.estimateTokenCount
  rw [foldl_est1, zero_add]

lemma est2_closed_form (messages : List Message) :
    CM2.estimateTokenCount messages
      = Nat.ceil ((sumContentLength messages : ℚ) / 4) + 20 * messages.length := by
  unfold CM2.estimateTokenCount
  rw [foldl_est2, zero_add]
  have h4 : (0 : ℚ) ≤ (sumContentLength messages : ℚ) / 4 := by positivity
  have : (sumContentLength messages : ℚ) / 4 + 20 * (messages.length : ℚ)
      = (sumContentLength messages : ℚ) / 4 + ((20 * messages.length : ℕ) : ℚ) := by
    push_cast
    ring
  rw [this, Nat.ceil_add_nat h4]

lemma sumContentLength_append (l1 l2 : List Message) :
    sumContentLength (l1 ++ l2) = sumContentLength l1 + sumContentLength l2 := by
  simp [sumContentLength]

lemma est1_mono_append (messages : List Message) (m : Message) :
    CM1.estimateTokenCount messages ≤ CM1.estimateTokenCount (messages ++ [m]) := by
  rw [est1_closed_form, est1_closed_form, sumContentLength_append]
  apply Nat.ceil_le_ceil
  push_cast
  have h0 : (0 : ℚ) ≤ (sumContentLength [m] : ℚ) := by positivity
  linarith

lemma est2_mono_append (messages : List Message) (m : Message) :
    CM2.estimateTokenCount messages ≤ CM2.estimateTokenCount (messages ++ [m]) := by
  rw [est2_closed_form, est2_closed_form, sumContentLength_append]
  have h1 : Nat.ceil ((sumContentLength messages : ℚ) / 4)
      ≤ Nat.ceil (((sumContentLength messages + sumContentLength [m] : ℕ) : ℚ) / 4) := by
    apply Nat.ceil_le_ceil
    push_cast
    have h0 : (0 : ℚ) ≤ (sumContentLength [m] : ℚ) := by positivity
    linarith
  have h2 : 20 * messages.length ≤ 20 * (messages ++ [m]).length := by
    simp
  omega

lemma fitGreedy_totalTokens_le (est1 : Message → Nat) (maxTokens : Nat) :
    ∀ (rest acc : List Message) (cur : Nat), cur ≤ maxTokens →
      (fitGreedy est1 maxTokens rest acc cur).totalTokens ≤ maxTokens := by
  intro rest
  induction rest with
  | nil => intro acc cur h; simpa [fitGreedy] using h
  | cons m tl ih =>
    intro acc cur h
    by_cases hc : cur + est1 m ≤ maxTokens
    · simpa [fitGreedy, hc] using ih (m :: acc) (cur + est1 m) hc
    · simpa [fitGreedy, hc] using h

lemma sysLoop_totalTokens_le (est1 : Message → Nat) (maxTokens : Nat) :
    ∀ (rest acc : List Message) (cur : Nat), cur ≤ maxTokens →
      (CMP4.sysLoop est1 maxTokens rest acc cur).2 ≤ maxTokens := by
  intro rest
  induction rest with
  | nil => intro acc cur h; simpa [CMP4.sysLoop] using h
  | cons m tl ih =>
    intro acc cur h
    by_cases hc : cur + est1 m ≤ maxTokens
    · simpa [CMP4.sysLoop, hc] using ih (acc ++ [m]) (cur + est1 m) hc
    · simpa [CMP4.sysLoop, hc] using ih acc cur h

lemma CM1.truncateContext_cases (messages : List Message) (maxTokens : Nat) :
    (CM1.truncateContext messages maxTokens).totalTokens ≤ maxTokens ∨
    ((CM1.truncateContext messages maxTokens).messages
        = messages.filter CM1.essentialPred ∧
      (CM1.truncateContext messages maxTokens).totalTokens
        = CM1.estimateTokenCount (messages.filter CM1.essentialPred) ∧
      maxTokens < CM1.estimateTokenCount (messages.filter CM1.essentialPred)) := by
  by_cases h : (maxTokens : ℤ)
      - (CM1.estimateTokenCount (messages.filter CM1.essentialPred) : ℤ) ≤ 0
  · have hle : maxTokens ≤ CM1.estimateTokenCount (messages.filter CM1.essentialPred) := by
      omega
    rcases eq_or_lt_of_le hle with heq | hlt
    · left
      simp [CM1.truncateContext, h, ← heq]
    · right
      refine ⟨?_, ?_, hlt⟩ <;> simp [CM1.truncateContext, h]
  · left
    have hlt : CM1.estimateTokenCount (messages.filter CM1.essentialPred) ≤ maxTokens := by
      omega
    simp only [CM1.truncateContext, h, if_false]
    exact fitGreedy_totalTokens_le _ _ _ _ _ hlt

namespace Cache

lemma lookup_writeFile_self (files : List (String × CacheEntry)) (id : String)
    (e : CacheEntry) : (writeFile files id e).lookup id = some e := by
  induction files with
  | nil => simp [writeFile, List.lookup_cons]
  | cons p rest ih =>
    rcases p with ⟨k, v⟩
    by_cases hk : k = id
    · subst hk
      simp [writeFile, List.lookup_cons]
    · simp [writeFile, hk, List.lookup_cons, beq_false_of_ne (Ne.symm hk), ih]

lemma lookup_append_single_ne {α : Type} (l : List (String × α)) (tag t : String)
    (v : α) (h : t ≠ tag) : (l ++ [(tag, v)]).lookup t = l.lookup t := by
  induction l with
  | nil => simp [List.lookup_cons, beq_false_of_ne h]
  | cons p rest ih =>
    rcases p with ⟨k, w⟩
    by_cases hkt : t = k
    · subst hkt
      simp [List.lookup_cons]
    · simp [List.lookup_cons, beq_false_of_ne hkt, ih]

lemma lookup_append_of_none {α : Type} (l r : List (String × α)) (t : String)
    (h : l.lookup t = none) : (l ++ r).lookup t = r.lookup t := by
  induction l with
  | nil => simp
  | cons p rest ih =>
    rcases p with ⟨k, v⟩
    by_cases hk : t = k
    · subst hk
      simp [List.lookup_cons] at h
    · simp only [List.lookup_cons, beq_false_of_ne hk] at h
      simp only [List.cons_append, List.lookup_cons, beq_false_of_ne hk]
      exact ih h

lemma lookup_setTag_self (idx : Index) (tag : String) (ids : List String) :
    (setTag idx tag ids).lookup tag = some ids := by
  induction idx with
  | nil => simp [setTag, List.lookup_cons]
  | cons p rest ih =>
    rcases p with ⟨k, v⟩
    by_cases hk : k = tag
    · subst hk
      simp [setTag, List.lookup_cons]
    · simp [setTag, hk, List.lookup_cons, beq_false_of_ne (Ne.symm hk), ih]

lemma lookup_setTag_ne (idx : Index) (tag t : String) (ids : List String)
    (h : t ≠ tag) : (setTag idx tag ids).lookup t = idx.lookup t := by
  induction idx with
  | nil => simp [setTag, List.lookup_cons, beq_false_of_ne h]
  | cons p rest ih =>
    rcases p with ⟨k, v⟩
    by_cases hk : k = tag
    · subst hk
      simp [setTag, List.lookup_cons, beq_false_of_ne h]
    · by_cases hkt : t = k
      · subst hkt
        simp [setTag, hk, List.lookup_cons]
      · simp [setTag, hk, List.lookup_cons, beq_false_of_ne hkt, ih]

lemma lookupTag_indexAdd_ne (idx : Index) (tag id t : String) (h : t ≠ tag) :
    lookupTag (indexAdd idx tag id) t = lookupTag idx t := by
  simp only [indexAdd]
  by_cases hn : idx.lookup tag = none
  · rw [if_pos hn]
    by_cases hid : id ∈ lookupTag (idx ++ [(tag, [])]) tag
    · rw [if_pos hid]
      simp only [lookupTag]
      rw [lookup_append_single_ne _ _ _ _ h]
    · rw [if_neg hid]
      simp only [lookupTag]
      rw [lookup_setTag_ne _ _ _ _ h, lookup_append_single_ne _ _ _ _ h]
  · rw [if_neg hn]
    by_cases hid : id ∈ lookupTag idx tag
    · rw [if_pos hid]
    · rw [if_neg hid]
      simp only [lookupTag]
      rw [lookup_setTag_ne _ _ _ _ h]

lemma lookupTag_append_single_self (idx : Index) (tag : String) (v : List String)
    (hn : idx.lookup tag = none) : lookupTag (idx ++ [(tag, v)]) tag = v := by
  simp [lookupTag, lookup_append_of_none _ _ _ hn, List.lookup_cons]

lemma lookupTag_indexAdd_self (idx : Index) (tag id : String) :
    lookupTag (indexAdd idx tag id) tag
      = if id ∈ lookupTag idx tag then lookupTag idx tag
        else lookupTag idx tag ++ [id] := by
  simp only [indexAdd]
  by_cases hn : idx.lookup tag = none
  · have h1 : lookupTag (idx ++ [(tag, [])]) tag = [] :=
      lookupTag_append_single_self idx tag [] hn
    have h2 : lookupTag idx tag = [] := by
      simp [lookupTag, hn]
    rw [if_pos hn, h1, h2, if_neg (List.not_mem_nil id), if_neg (List.not_mem_nil id),
      List.nil_append]
    simp only [lookupTag]
    rw [lookup_setTag_self]
    rfl
  · rw [if_neg hn]
    by_cases hid : id ∈ lookupTag idx tag
    · rw [if_pos hid, if_pos hid]
    · rw [if_neg hid, if_neg hid]
      simp only [lookupTag]
      rw [lookup_setTag_self]
      rfl

lemma mem_lookupTag_indexAdd (idx : Index) (tag id t h' : String) :
    h' ∈ lookupTag (indexAdd idx tag id) t
      ↔ h' ∈ lookupTag idx t ∨ (t = tag ∧ h' = id) := by
  by_cases ht : t = tag
  · subst ht
    rw [lookupTag_indexAdd_self]
    by_cases hid : id ∈ lookupTag idx t
    · simp only [hid, if_pos, true_and]
      constructor
      · exact fun hm => Or.inl hm
      · rintro (hm | rfl)
        · exact hm
        · exact hid
    · simp [hid, List.mem_append]
  · rw [lookupTag_indexAdd_ne _ _ _ _ ht]
    simp [ht]

lemma lookupTag_updateIndex_not_mem (id t : String) :
    ∀ (tags : List String) (idx : Index), t ∉ tags →
      lookupTag (updateIndex idx id tags) t = lookupTag idx t := by
  intro tags
  induction tags with
  | nil => intro idx _; rfl
  | cons tg tl ih =>
    intro idx hmem
    have h1 : t ≠ tg := fun hh => hmem (hh ▸ List.mem_cons_self _ _)
    have h2 : t ∉ tl := fun hh => hmem (List.mem_cons_of_mem _ hh)
    have hstep : updateIndex idx id (tg :: tl) = updateIndex (indexAdd idx tg id) id tl := rfl
    rw [hstep, ih _ h2, lookupTag_indexAdd_ne _ _ _ _ h1]

lemma mem_lookupTag_updateIndex (id t h' : String) :
    ∀ (tags : List String) (idx : Index),
      h' ∈ lookupTag (updateIndex idx id tags) t
        ↔ h' ∈ lookupTag idx t ∨ (t ∈ tags ∧ h' = id) := by
  intro tags
  induction tags with
  | nil => intro idx; simp [updateIndex]
  | cons tg tl ih =>
    intro idx
    have hstep : updateIndex idx id (tg :: tl) = updateIndex (indexAdd idx tg id) id tl := rfl
    rw [hstep, ih (indexAdd idx tg id), mem_lookupTag_indexAdd]
    constructor
    · rintro ((hm | ⟨rfl, rfl⟩) | ⟨hmem, rfl⟩)
      · exact Or.inl hm
      · exact Or.inr ⟨List.mem_cons_self _ _, rfl⟩
      · exact Or.inr ⟨List.mem_cons_of_mem _ hmem, rfl⟩
    · rintro (hm | ⟨hmem, rfl⟩)
      · exact Or.inl (Or.inl hm)
      · rcases List.mem_cons.mp hmem with rfl | hmem'
        · exact Or.inl (Or.inr ⟨rfl, rfl⟩)
        · exact Or.inr ⟨hmem', rfl⟩

lemma rebuildIndex_eq_foldl (files : List (String × CacheEntry)) :
    rebuildIndex files
      = files.foldl (fun index file => updateIndex index file.1 file.2.tags) [] := rfl

lemma mem_lookupTag_foldl_update (t h' : String) :
    ∀ (files : List (String × CacheEntry)) (idx0 : Index),
      h' ∈ lookupTag
          (files.foldl (fun index file => updateIndex index file.1 file.2.tags) idx0) t
        ↔ h' ∈ lookupTag idx0 t ∨ ∃ p, p ∈ files ∧ p.1 = h' ∧ t ∈ p.2.tags := by
  intro files
  induction files with
  | nil => intro idx0; simp
  | cons f tl ih =>
    intro idx0
    simp only [List.foldl_cons]
    rw [ih (updateIndex idx0 f.1 f.2.tags), mem_lookupTag_updateIndex]
    constructor
    · rintro ((hm | ⟨htag, rfl⟩) | ⟨p, hp, hph, hpt⟩)
      · exact Or.inl hm
      · exact Or.inr ⟨f, List.mem_cons_self _ _, rfl, htag⟩
      · exact Or.inr ⟨p, List.mem_cons_of_mem _ hp, hph, hpt⟩
    · rintro (hm | ⟨p, hp, hph, hpt⟩)
      · exact Or.inl (Or.inl hm)
      · rcases List.mem_cons.mp hp with rfl | hp'
        · exact Or.inl (Or.inr ⟨hpt, hph.symm⟩)
        · exact Or.inr ⟨p, hp', hph, hpt⟩

lemma mem_lookupTag_rebuildIndex (files : List (String × CacheEntry))
    (t h' : String) :
    h' ∈ lookupTag (rebuildIndex files) t
      ↔ ∃ p, p ∈ files ∧ p.1 = h' ∧ t ∈ p.2.tags := by
  rw [rebuildIndex_eq_foldl, mem_lookupTag_foldl_update]
  simp [lookupTag]

lemma mem_of_lookup_eq_some {α : Type} :
    ∀ {files : List (String × α)} {h' : String} {e : α},
      files.lookup h' = some e → (h', e) ∈ files := by
  intro files
  induction files with
  | nil => intro h' e h; simp [List.lookup] at h
  | cons p rest ih =>
    intro h' e h
    rcases p with ⟨k, v⟩
    by_cases hk : h' = k
    · subst hk
      simp only [List.lookup_cons, beq_self_eq_true] at h
      obtain rfl : v = e := by simpa using h
      exact List.mem_cons_self _ _
    · simp only [List.lookup_cons, beq_false_of_ne hk] at h
      exact List.mem_cons_of_mem _ (ih h)

lemma lookup_eq_some_of_mem_nodup {α : Type} :
    ∀ {files : List (String × α)} {h' : String} {e : α},
      (files.map Prod.fst).Nodup → (h', e) ∈ files → files.lookup h' = some e := by
  intro files
  induction files with
  | nil => intro h' e _ hm; simp at hm
  | cons p rest ih =>
    intro h' e hnd hm
    rcases p with ⟨k, v⟩
    simp only [List.map_cons, List.nodup_cons] at hnd
    rcases List.mem_cons.mp hm with heq | hm'
    · rw [Prod.mk.injEq] at heq
      obtain ⟨rfl, rfl⟩ := heq
      simp [List.lookup_cons]
    · have hne : h' ≠ k := by
        intro hh
        subst hh
        exact hnd.1 (List.mem_map.mpr ⟨(h', e), hm', rfl⟩)
      simp only [List.lookup_cons, beq_false_of_ne hne]
      exact ih hnd.2 hm'

lemma mem_dedupFirst :
    ∀ (l seen : List String) (x : String),
      x ∈ dedupFirst seen l ↔ x ∈ l ∧ x ∉ seen := by
  intro l
  induction l with
  | nil => intro seen x; simp [dedupFirst]
  | cons y tl ih =>
    intro seen x
    simp only [dedupFirst]
    by_cases hy : y ∈ seen
    · rw [if_pos hy, ih]
      constructor
      · rintro ⟨hm, hns⟩
        exact ⟨List.mem_cons_of_mem _ hm, hns⟩
      · rintro ⟨hm, hns⟩
        rcases List.mem_cons.mp hm with rfl | hm'
        · exact absurd hy hns
        · exact ⟨hm', hns⟩
    · rw [if_neg hy]
      constructor
      · intro hm
        rcases List.mem_cons.mp hm with rfl | hm'
        · exact ⟨List.mem_cons_self _ _, hy⟩
        · rcases (ih (y :: seen) x).mp hm' with ⟨h1, h2⟩
          exact ⟨List.mem_cons_of_mem _ h1,
            fun hs => h2 (List.mem_cons_of_mem _ hs)⟩
      · rintro ⟨hm, hns⟩
        rcases List.mem_cons.mp hm with rfl | hm'
        · exact List.mem_cons_self _ _
        · by_cases hxy : x = y
          · subst hxy
            exact List.mem_cons_self _ _
          · refine List.mem_cons_of_mem _ ((ih (y :: seen) x).mpr ⟨hm', ?_⟩)
            intro hs
            rcases List.mem_cons.mp hs with h | h
            · exact hxy h
            · exact hns h

lemma mem_findByTags_pair (st : LevelState) (t1 t2 : String) (e : CacheEntry) :
    e ∈ findByTags [t1, t2] st
      ↔ ∃ hsh, hsh ∈ lookupTag st.index t1 ∧ hsh ∈ lookupTag st.index t2 ∧
          st.files.lookup hsh = some e := by
  simp only [findByTags, List.map_cons, List.map_nil, List.headD_cons,
    List.mem_filterMap, List.mem_filter, mem_dedupFirst, List.all_cons,
    List.all_nil, Bool.and_eq_true, decide_eq_true_eq, get,
    List.not_mem_nil, not_false_iff, and_true, true_and]
  tauto

end Cache

/-! Claim theorems. -/

/-- C1: `optimizeContext(messages, maxTokens)` always returns a
`ContextWindow` whose `totalTokens` (as computed by the implementation's
own estimator) is at most `maxTokens`, except when even the minimal
essential message set alone exceeds the budget, in which case the
function logs a warning and returns exactly that essential set together
with its (over-budget) estimated token count; the function is total, so
it never throws for this condition.  The first conjunct is the
`ContextManager` with the essential-set fallback (ContextManager.ts
lines 29-53 and 211-254), quantified over every possible behaviour of
the summarization collaborator; the remaining conjuncts show the two
greedy `truncateContext` variants (lines 327-348 and part_004) never
exceed the available budget — for `CM2.optimizeContext` under a nonzero
budget, since JS treats a zero `maxTokens` as absent and substitutes the
model's limit. -/
theorem optimizeContext_respects_budget :
    (∀ (summarize : List Message → Nat → List Message) (now : Nat)
        (messages : List Message) (maxTokens : Nat),
      (CM1.optimizeContext summarize now messages maxTokens).totalTokens ≤ maxTokens ∨
      ((CM1.optimizeContext summarize now messages maxTokens).messages
          = (summarize messages maxTokens).filter CM1.essentialPred ∧
        (CM1.optimizeContext summarize now messages maxTokens).totalTokens
          = CM1.estimateTokenCount
              ((summarize messages maxTokens).filter CM1.essentialPred) ∧
        maxTokens < CM1.estimateTokenCount
          ((summarize messages maxTokens).filter CM1.essentialPred))) ∧
    (∀ (limit now : Nat) (messages : List Message) (maxTokens : Nat),
      maxTokens ≠ 0 →
      (CM2.optimizeContext limit now messages maxTokens).totalTokens ≤ maxTokens) ∧
    (∀ (messages : List Message) (maxTokens : Nat),
      (CMP4.truncateContext messages maxTokens).totalTokens ≤ maxTokens) := by
  refine ⟨?_, ?_, ?_⟩
  · intro summarize now messages maxTokens
    by_cases h1 : CM1.estimateTokenCount (CM1.getPriorityMessages now messages)
        ≤ maxTokens
    · left
      simp [CM1.optimizeContext, h1]
    · by_cases h2 : CM1.estimateTokenCount (summarize messages maxTokens) ≤ maxTokens
      · left
        simp [CM1.optimizeContext, h1, h2]
      · have heq : CM1.optimizeContext summarize now messages maxTokens
            = CM1.truncateContext (summarize messages maxTokens) maxTokens := by
          simp [CM1.optimizeContext, h1, h2]
        rw [heq]
        exact CM1.truncateContext_cases (summarize messages maxTokens) maxTokens
  · intro limit now messages maxTokens hB
    simp only [CM2.optimizeContext, if_neg hB]
    by_cases h1 : CM2.estimateTokenCount (CM2.getPriorityMessages now messages)
        ≤ maxTokens
    · rw [if_pos h1]
      exact h1
    · rw [if_neg h1]
      exact fitGreedy_totalTokens_le _ _ _ _ _ (Nat.zero_le _)
  · intro messages maxTokens
    simp only [CMP4.truncateContext]
    exact fitGreedy_totalTokens_le _ _ _ _ _
      (sysLoop_totalTokens_le _ _ _ _ _ (Nat.zero_le _))

/-- Witness for C1: the budget bound at a concrete instance. -/
theorem optimizeContext_respects_budget_witness :
    (CM2.optimizeContext 100 0 [] 5).totalTokens ≤ 5 :=
  optimizeContext_respects_budget.2.1 100 0 [] 5 (by decide)

/-- C2: the similarity scorer violates its own contract (`@returns
Number between 0 and 1`) and the spec's short-string clause.  On
`str1 = "a"`, `str2 = "b"` — both normalized strings shorter than two
characters and unequal — the final division is `0 / 0`, which is `NaN`
in JS (modelled as `none`), not `0` and not a number in `[0, 1]`. -/
theorem computeStringSimilarity_nan_on_short_strings :
    Similarity.computeStringSimilarity "a" "b" = none := by decide

/-- C3 counterexample: the `getPriorityMessages` at ContextManager.ts
lines 308-318 tests no role at all, so a system-role message older than
30 minutes with no marker in its content is dropped, contradicting
"every system-role message is retained unconditionally". -/
theorem getPriorityMessages_drops_system_message :
    CM2.getPriorityMessages 1800001 [⟨InternalRole.system, "hello", some 0⟩] = [] := by
  decide

/-- C3 amended: the variant at ContextManager.ts lines 55-72 retains a
message iff it is system-role, or under 30 minutes old, or carries a
code-fence/embedded-command marker, or a file-operation marker — exactly
the claimed condition; the lines 308-318 variant ignores roles (recent ∨
code ∨ file-operation only); the part_004 variant additionally retains
old assistant messages whose content mentions `code`, `systemCommand`
or `error`. -/
theorem getPriorityMessages_keeps_exactly :
    (∀ (now : Nat) (messages : List Message) (m : Message),
      m ∈ CM1.getPriorityMessages now messages
        ↔ m ∈ messages ∧ (m.role = InternalRole.system ∨ isRecent now m = true
            ∨ hasCode m = true ∨ isFileOperation m = true)) ∧
    (∀ (now : Nat) (messages : List Message) (m : Message),
      m ∈ CM2.getPriorityMessages now messages
        ↔ m ∈ messages ∧ (isRecent now m = true ∨ hasCode m = true
            ∨ isFileOperation m = true)) ∧
    (∀ (now : Nat) (messages : List Message) (m : Message),
      m ∈ CMP4.getPriorityMessages now messages
        ↔ m ∈ messages ∧ (m.role = InternalRole.system ∨ isRecent now m = true
            ∨ hasCode m = true ∨ isFileOperation m = true
            ∨ CMP4.isImportantRole m = true)) := by
  refine ⟨?_, ?_, ?_⟩
  · intro now messages m
    rcases m with ⟨role, content, ts⟩
    cases role <;>
      simp [CM1.getPriorityMessages, List.mem_filter, Bool.or_eq_true] <;> tauto
  · intro now messages m
    simp [CM2.getPriorityMessages, List.mem_filter, Bool.or_eq_true]
    tauto
  · intro now messages m
    rcases m with ⟨role, content, ts⟩
    cases role <;>
      simp [CMP4.getPriorityMessages, List.mem_filter, Bool.or_eq_true] <;> tauto

/-- Witness for C3 (amended): an old, marker-free system message is kept
by the lines 55-72 variant. -/
theorem getPriorityMessages_keeps_exactly_witness :
    (⟨InternalRole.system, "status", some 0⟩ : Message)
      ∈ CM1.getPriorityMessages 999999999
          [⟨InternalRole.system, "status", some 0⟩] :=
  (getPriorityMessages_keeps_exactly.1 999999999
      [⟨InternalRole.system, "status", some 0⟩]
      ⟨InternalRole.system, "status", some 0⟩).mpr
    ⟨by decide, Or.inl rfl⟩

/-- C4 counterexample: `updateIndex` only ever adds, so after re-storing
the same content `"c"` at the same level with tags `["t2"]` (previously
`["t1", "x"]`), the id stays in the index set of `"t1"`;
`findByTags(["t1", "t2"])` then returns the entry although its stored
tag set `["t2"]` does not contain `"t1"` — a superset violation on a
reachable state. -/
theorem findByTags_returns_entry_missing_tag :
    (Cache.findByTags ["t1", "t2"]
        (Cache.store (fun _ => "h") "m" 0 0 0
          ((Cache.store (fun _ => "h") "m" 0 0 0 ⟨[], []⟩ "c" ["t1", "x"]
              none none).2)
          "c" ["t2"] none none).2).any
      (fun e => !(decide ("t1" ∈ e.tags))) = true := by decide

/-- C4 amended: on a level whose index agrees with the rebuilt index of
its current entries (as holds right after `cleanup`'s rebuild, and in
any state with no re-stored content) and whose file names are distinct,
`findByTags([t1, t2])` returns exactly the entries whose stored tag set
contains both `t1` and `t2`. -/
theorem findByTags_exact_on_rebuilt_index (st : Cache.LevelState)
    (hN : (st.files.map Prod.fst).Nodup)
    (hI : st.index = Cache.rebuildIndex st.files) (t1 t2 : String) :
    (∀ e, e ∈ Cache.findByTags [t1, t2] st → t1 ∈ e.tags ∧ t2 ∈ e.tags) ∧
    (∀ h e, Cache.get h st = some e → t1 ∈ e.tags → t2 ∈ e.tags →
      e ∈ Cache.findByTags [t1, t2] st) := by
  constructor
  · intro e he
    rcases (Cache.mem_findByTags_pair st t1 t2 e).mp he with ⟨hsh, h1, h2, hget⟩
    rw [hI] at h1 h2
    rcases (Cache.mem_lookupTag_rebuildIndex _ _ _).mp h1 with ⟨p, hp, hph, hpt1⟩
    rcases (Cache.mem_lookupTag_rebuildIndex _ _ _).mp h2 with ⟨q, hq, hqh, hqt2⟩
    have hpe : st.files.lookup p.1 = some p.2 :=
      Cache.lookup_eq_some_of_mem_nodup hN hp
    have hqe : st.files.lookup q.1 = some q.2 :=
      Cache.lookup_eq_some_of_mem_nodup hN hq
    rw [hph] at hpe
    rw [hqh] at hqe
    have hp2 : p.2 = e := by
      have := hpe.symm.trans hget
      exact Option.some.inj this
    have hq2 : q.2 = e := by
      have := hqe.symm.trans hget
      exact Option.some.inj this
    exact ⟨hp2 ▸ hpt1, hq2 ▸ hqt2⟩
  · intro h e hget ht1 ht2
    have hmem : (h, e) ∈ st.files := Cache.mem_of_lookup_eq_some hget
    refine (Cache.mem_findByTags_pair st t1 t2 e).mpr ⟨h, ?_, ?_, hget⟩
    · rw [hI]
      exact (Cache.mem_lookupTag_rebuildIndex _ _ _).mpr ⟨(h, e), hmem, rfl, ht1⟩
    · rw [hI]
      exact (Cache.mem_lookupTag_rebuildIndex _ _ _).mpr ⟨(h, e), hmem, rfl, ht2⟩

/-- Witness for C4 (amended): on a one-entry consistent level, the entry
tagged with both requested tags is found. -/
theorem findByTags_exact_on_rebuilt_index_witness :
    (⟨"h", 0, "c", ["t1", "t2"], none, ⟨0, none, "m", none⟩⟩ : Cache.CacheEntry)
      ∈ Cache.findByTags ["t1", "t2"]
        ⟨[("h", ⟨"h", 0, "c", ["t1", "t2"], none, ⟨0, none, "m", none⟩⟩)],
          Cache.rebuildIndex
            [("h", ⟨"h", 0, "c", ["t1", "t2"], none, ⟨0, none, "m", none⟩⟩)]⟩ :=
  (findByTags_exact_on_rebuilt_index _ (by decide) rfl "t1" "t2").2 "h" _ rfl
    (by decide) (by decide)

/-- C5 counterexample: `cleanup` removes an entry only when
`now - timestamp > maxAge` (strict), so with `maxAge = 0` an entry whose
timestamp equals the cleanup's current time (100) survives and the
rebuilt index for its level is non-empty: after the call, level 0 still
holds 1 entry file and 1 index key. -/
theorem cleanup_zero_keeps_entry_timestamped_now :
    ((Cache.cleanupCS 100 0
        [some ⟨[("h", ⟨"h", 0, "c", ["t"], none, ⟨100, none, "m", none⟩⟩)], []⟩,
         some ⟨[], []⟩, some ⟨[], []⟩, some ⟨[], []⟩]).map
      (Option.map fun st => (st.files.length, st.index.length)))
      = [some (1, 1), some (0, 0), some (0, 0), some (0, 0)] := by decide

/-- C5 amended: `cleanup(maxAge = 0)` (with every level directory
readable) evicts, at every level, exactly the entries whose timestamp is
strictly before the current time, then rebuilds that level's index from
the survivors; in particular when every entry is strictly older than
`now`, the level ends with no entries and an empty index. -/
theorem cleanup_zero_evicts_strictly_older :
    (∀ (now : Nat) (ls : List Cache.LevelState),
      Cache.cleanupCS now 0 (ls.map some)
        = ls.map fun st => some (Cache.cleanupLevel now 0 st)) ∧
    (∀ (now : Nat) (st : Cache.LevelState),
      (Cache.cleanupLevel now 0 st).files
        = st.files.filter (fun f => decide (now ≤ f.2.metadata.timestamp)) ∧
      ((∀ f ∈ st.files, f.2.metadata.timestamp < now) →
        (Cache.cleanupLevel now 0 st).files = []
          ∧ (Cache.cleanupLevel now 0 st).index = [])) := by
  constructor
  · intro now ls
    induction ls with
    | nil => rfl
    | cons st tl ih => simp [Cache.cleanupCS, ih]
  · intro now st
    have hfilter : (Cache.cleanupLevel now 0 st).files
        = st.files.filter (fun f => decide (now ≤ f.2.metadata.timestamp)) := by
      simp only [Cache.cleanupLevel]
      apply List.filter_congr
      intro f _
      rcases Nat.lt_or_ge f.2.metadata.timestamp now with hlt | hge
      · have h1 : now - f.2.metadata.timestamp > 0 := by omega
        have h2 : ¬ now ≤ f.2.metadata.timestamp := by omega
        simp [h1, h2]
      · have h1 : ¬ now - f.2.metadata.timestamp > 0 := by omega
        simp [h1, hge]
    refine ⟨hfilter, fun hall => ?_⟩
    have hnil : st.files.filter
        (fun f => !(decide (now - f.2.metadata.timestamp > 0))) = [] := by
      rw [List.filter_eq_nil_iff]
      intro f hf
      have := hall f hf
      simp only [Bool.not_eq_true, Bool.not_eq_false', decide_eq_true_eq]
      omega
    constructor
    · simp only [Cache.cleanupLevel]
      exact hnil
    · simp only [Cache.cleanupLevel]
      rw [hnil]
      rfl

/-- Witness for C5 (amended): a level whose only entry is older than
`now` is fully emptied by `cleanup(0)`. -/
theorem cleanup_zero_evicts_strictly_older_witness :
    (Cache.cleanupLevel 5 0
        ⟨[("h", ⟨"h", 0, "c", ["t"], none, ⟨0, none, "m", none⟩⟩)],
          [("t", ["h"])]⟩).files = []
      ∧ (Cache.cleanupLevel 5 0
          ⟨[("h", ⟨"h", 0, "c", ["t"], none, ⟨0, none, "m", none⟩⟩)],
            [("t", ["h"])]⟩).index = [] :=
  (cleanup_zero_evicts_strictly_older.2 5
      ⟨[("h", ⟨"h", 0, "c", ["t"], none, ⟨0, none, "m", none⟩⟩)],
        [("t", ["h"])]⟩).2 (by decide)

/-- C6 counterexample: in `CacheService.cleanup` the try/catch wraps the
whole level loop, so when level 0's directory is unreadable the
remaining levels are left unprocessed — level 1's entry with timestamp 0
is strictly older than `maxAge = 0` at `now = 100`, yet it is neither
evicted nor is level 1's index rebuilt. -/
theorem cleanup_aborts_after_failed_level :
    Cache.cleanupCS 100 0
        [none,
         some ⟨[("h", ⟨"h", 0, "c", ["t"], none, ⟨0, none, "m", none⟩⟩)], []⟩,
         some ⟨[], []⟩, some ⟨[], []⟩]
      = [none,
         some ⟨[("h", ⟨"h", 0, "c", ["t"], none, ⟨0, none, "m", none⟩⟩)], []⟩,
         some ⟨[], []⟩, some ⟨[], []⟩]
      ∧ (100 : Nat) - 0 > 0 := by decide

/-- C6 amended: per-level failure isolation holds for the
`HierarchicalCacheService.cleanup` of part_001 (each level's outcome
depends only on that level's own state, and every readable level is
evicted and rebuilt, whatever happens at the others), while in
`CacheService.cleanup` a failing level aborts the processing of all
later levels (the failure is still only logged, never raised: the
function stays total). -/
theorem cleanup_per_level_isolation :
    (∀ (now maxAge : Nat) (levels : Cache.CacheState) (i : Nat),
      (Cache.cleanupHier now maxAge levels).get? i
        = (levels.get? i).map (Option.map (Cache.cleanupLevel now maxAge))) ∧
    (∀ (now maxAge : Nat) (rest : Cache.CacheState),
      Cache.cleanupCS now maxAge (none :: rest) = none :: rest) := by
  constructor
  · intro now maxAge levels i
    simp [Cache.cleanupHier]
  · intro now maxAge rest
    rfl

/-- Witness for C6 (amended): the isolation equation at a concrete
failed level. -/
theorem cleanup_per_level_isolation_witness :
    (Cache.cleanupHier 1 2 [none]).get? 0
      = (([none] : Cache.CacheState).get? 0).map
          (Option.map (Cache.cleanupLevel 1 2)) :=
  cleanup_per_level_isolation.1 1 2 [none] 0

/-- C7: storing content `c` with tags `t` at level `l` and then reading
back the id of the returned entry yields that same entry, whose
`content` is `c` and whose `tags` are `t` — for every deterministic id
derivation, model name, token cost, time, level, prior level state and
optional parent/token arguments. -/
theorem store_then_get_roundtrip
    (genId : String → String) (currentModel : String) (currentTokenCost : ℚ)
    (now level : Nat) (st : Cache.LevelState) (content : String)
    (tags : List String) (parentId : Option String) (tokensUsed : Option Nat) :
    Cache.get
        (Cache.store genId currentModel currentTokenCost now level st content
          tags parentId tokensUsed).1.id
        (Cache.store genId currentModel currentTokenCost now level st content
          tags parentId tokensUsed).2
      = some (Cache.store genId currentModel currentTokenCost now level st content
          tags parentId tokensUsed).1
    ∧ (Cache.store genId currentModel currentTokenCost now level st content
        tags parentId tokensUsed).1.content = content
    ∧ (Cache.store genId currentModel currentTokenCost now level st content
        tags parentId tokensUsed).1.tags = tags := by
  refine ⟨?_, rfl, rfl⟩
  exact Cache.lookup_writeFile_self st.files _ _

/-- Witness for C7 at a concrete store. -/
theorem store_then_get_roundtrip_witness :
    Cache.get (Cache.store (fun s => s) "m" 0 7 2 ⟨[], []⟩ "c" ["a"] none none).1.id
        (Cache.store (fun s => s) "m" 0 7 2 ⟨[], []⟩ "c" ["a"] none none).2
      = some (Cache.store (fun s => s) "m" 0 7 2 ⟨[], []⟩ "c" ["a"] none none).1 :=
  (store_then_get_roundtrip (fun s => s) "m" 0 7 2 ⟨[], []⟩ "c" ["a"] none none).1

/-- C8 counterexample: rebuilding from a permutation of the same entries
does not produce byte-identical output — the JSON object keys (and the
id arrays) follow directory order, so two entries tagged `a` and `b`
swapped give `{a:[i1], b:[i2]}` versus `{b:[i2], a:[i1]}`. -/
theorem rebuildIndex_order_dependent :
    ([("i1", ⟨"i1", 0, "a", ["a"], none, ⟨0, none, "m", none⟩⟩),
      ("i2", ⟨"i2", 0, "b", ["b"], none, ⟨0, none, "m", none⟩⟩)]
        : List (String × Cache.CacheEntry)).Perm
      [("i2", ⟨"i2", 0, "b", ["b"], none, ⟨0, none, "m", none⟩⟩),
       ("i1", ⟨"i1", 0, "a", ["a"], none, ⟨0, none, "m", none⟩⟩)] ∧
    Cache.rebuildIndex
        [("i1", ⟨"i1", 0, "a", ["a"], none, ⟨0, none, "m", none⟩⟩),
         ("i2", ⟨"i2", 0, "b", ["b"], none, ⟨0, none, "m", none⟩⟩)]
      ≠ Cache.rebuildIndex
        [("i2", ⟨"i2", 0, "b", ["b"], none, ⟨0, none, "m", none⟩⟩),
         ("i1", ⟨"i1", 0, "a", ["a"], none, ⟨0, none, "m", none⟩⟩)] := by
  constructor
  · exact List.Perm.swap _ _ _
  · decide

/-- C8 amended: rebuilding is idempotent (a second rebuild from the same
entry files rewrites an identical index, since the rebuild reads only
the entry files), and as a mapping tag → id set the result is
order-independent: permuting the entries never changes any tag's id
set — only the serialized ordering differs. -/
theorem rebuildIndex_idempotent_and_set_order_independent :
    (∀ st : Cache.LevelState,
      Cache.rebuildLevel (Cache.rebuildLevel st) = Cache.rebuildLevel st) ∧
    (∀ (f1 f2 : List (String × Cache.CacheEntry)), f1.Perm f2 →
      ∀ (t h : String),
        (h ∈ Cache.lookupTag (Cache.rebuildIndex f1) t
          ↔ h ∈ Cache.lookupTag (Cache.rebuildIndex f2) t)) := by
  constructor
  · intro st
    rfl
  · intro f1 f2 hperm t h
    rw [Cache.mem_lookupTag_rebuildIndex, Cache.mem_lookupTag_rebuildIndex]
    constructor
    · rintro ⟨p, hp, h1, h2⟩
      exact ⟨p, hperm.mem_iff.mp hp, h1, h2⟩
    · rintro ⟨p, hp, h1, h2⟩
      exact ⟨p, hperm.mem_iff.mpr hp, h1, h2⟩

/-- Witness for C8 (amended): set-level agreement on a concrete swapped
pair of entries. -/
theorem rebuildIndex_idempotent_and_set_order_independent_witness :
    ("i1" ∈ Cache.lookupTag (Cache.rebuildIndex
        [("i1", ⟨"i1", 0, "a", ["a"], none, ⟨0, none, "m", none⟩⟩),
         ("i2", ⟨"i2", 0, "b", ["b"], none, ⟨0, none, "m", none⟩⟩)]) "a"
      ↔ "i1" ∈ Cache.lookupTag (Cache.rebuildIndex
        [("i2", ⟨"i2", 0, "b", ["b"], none, ⟨0, none, "m", none⟩⟩),
         ("i1", ⟨"i1", 0, "a", ["a"], none, ⟨0, none, "m", none⟩⟩)]) "a") :=
  rebuildIndex_idempotent_and_set_order_independent.2 _ _
    (List.Perm.swap _ _ _) "a" "i1"

/-- C9 counterexample: the estimator of the first `ContextManager`
(lines 74-79) has no per-message overhead: on a single 4-character
message it returns 1, not `ceil(4/4 + 20·1) = 21`, so the claimed
formula with a ≈20-token overhead does not describe it. -/
theorem estimate_overhead_mismatch :
    CM1.estimateTokenCount [⟨InternalRole.user, "abcd", none⟩]
      ≠ Nat.ceil ((sumContentLength [⟨InternalRole.user, "abcd", none⟩] : ℚ) / 4
          + 20 * (([⟨InternalRole.user, "abcd", none⟩] : List Message).length : ℚ)) := by
  have hs : sumContentLength [(⟨InternalRole.user, "abcd", none⟩ : Message)] = 4 := by
    decide
  have h1 : CM1.estimateTokenCount [⟨InternalRole.user, "abcd", none⟩] = 1 := by
    rw [est1_closed_form, hs]
    rw [show ((4 : ℕ) : ℚ) / 4 = 1 by norm_num, Nat.ceil_one]
  have h2 : Nat.ceil ((sumContentLength [(⟨InternalRole.user, "abcd", none⟩ : Message)] : ℚ) / 4
      + 20 * (([⟨InternalRole.user, "abcd", none⟩] : List Message).length : ℚ)) = 21 := by
    rw [hs]
    rw [show ((4 : ℕ) : ℚ) / 4
        + 20 * (([(⟨InternalRole.user, "abcd", none⟩ : Message)] : List Message).length : ℚ)
        = ((21 : ℕ) : ℚ) by norm_num]
    exact Nat.ceil_natCast 21
  rw [h1, h2]
  omega

/-- C9 amended: the estimators at ContextManager.ts lines 320-325 and in
part_004 compute exactly `ceil(Σ len/4) + 20·count` (the claimed formula
with overhead constant 20), while the lines 74-79 variant computes
`ceil(Σ len/4)` with overhead 0; all variants are deterministic
functions of the message list and monotone under appending a message. -/
theorem estimateTokenCount_formula_and_monotone :
    (∀ messages : List Message,
      CM2.estimateTokenCount messages
        = Nat.ceil ((sumContentLength messages : ℚ) / 4) + 20 * messages.length) ∧
    (∀ messages : List Message,
      CM1.estimateTokenCount messages
        = Nat.ceil ((sumContentLength messages : ℚ) / 4)) ∧
    (∀ (messages : List Message) (m : Message),
      CM2.estimateTokenCount messages ≤ CM2.estimateTokenCount (messages ++ [m])) ∧
    (∀ (messages : List Message) (m : Message),
      CM1.estimateTokenCount messages ≤ CM1.estimateTokenCount (messages ++ [m])) :=
  ⟨est2_closed_form, est1_closed_form, est2_mono_append, est1_mono_append⟩

/-- Witness for C9 (amended): monotonicity at a concrete instance. -/
theorem estimateTokenCount_formula_and_monotone_witness :
    CM2.estimateTokenCount []
      ≤ CM2.estimateTokenCount ([] ++ [⟨InternalRole.user, "ab", none⟩]) :=
  estimateTokenCount_formula_and_monotone.2.2.1 [] ⟨InternalRole.user, "ab", none⟩

/-- C10: `store` only ever adds to the level's tag index: the id list of
every tag outside the stored entry's tag list is byte-identical to what
it was, and no id is removed from any tag's list. -/
theorem store_only_extends_index
    (genId : String → String) (currentModel : String) (currentTokenCost : ℚ)
    (now level : Nat) (st : Cache.LevelState) (content : String)
    (tags : List String) (parentId : Option String) (tokensUsed : Option Nat) :
    (∀ t, t ∉ tags →
      Cache.lookupTag (Cache.store genId currentModel currentTokenCost now level
          st content tags parentId tokensUsed).2.index t
        = Cache.lookupTag st.index t) ∧
    (∀ t h, h ∈ Cache.lookupTag st.index t →
      h ∈ Cache.lookupTag (Cache.store genId currentModel currentTokenCost now
          level st content tags parentId tokensUsed).2.index t) := by
  constructor
  · intro t ht
    exact Cache.lookupTag_updateIndex_not_mem _ _ tags st.index ht
  · intro t h hmem
    exact (Cache.mem_lookupTag_updateIndex _ _ _ tags st.index).mpr (Or.inl hmem)

/-- Witness for C10: a tag absent from the stored tag list keeps its id
list. -/
theorem store_only_extends_index_witness :
    Cache.lookupTag (Cache.store (fun s => s) "m" 0 0 0 ⟨[], [("z", ["x"])]⟩
        "c" ["a"] none none).2.index "z"
      = Cache.lookupTag [("z", ["x"])] "z" :=
  (store_only_extends_index (fun s => s) "m" 0 0 0 ⟨[], [("z", ["x"])]⟩
      "c" ["a"] none none).1 "z" (by decide)

end Codemonkey

